import Mathlib

/-!
Verification development for the AIM (Ash Impact Modelling) interface module
(`source/aim/interface.py`): the parameter-space expander, the wind-profile
patcher, the wind-profile stitcher and the distributed multiple-windfield
scheduler are shallowly embedded as executable Lean definitions, and the
spec-level properties about them are proved or refuted below.

Conventions of the embedding:
* a text file is a `List String` of its lines, each line keeping its
  trailing newline exactly as Python `readlines` returns it;
* Python code that can raise returns `Except`, with one constructor per
  relevant exception class (IndexError, ValueError, AssertionError,
  NameError);
* machine integers are `Int`/`Nat` (Python ints are unbounded, so no
  modular wrap is needed).
-/

deriving instance DecidableEq for Except

namespace PF3D

/-- Exception outcomes of the analysed fragments of `interface.py`. -/
inductive PatchErr where
  | indexError
  | valueError
deriving DecidableEq

/-- Strip leading and trailing whitespace from a character list, as Python
`int()` does to its argument before parsing. -/
def pyStripWS (cs : List Char) : List Char :=
  ((cs.dropWhile Char.isWhitespace).reverse.dropWhile Char.isWhitespace).reverse

/-- Numeric value of a list of decimal digit characters. -/
def digitsVal (cs : List Char) : Nat :=
  cs.foldl (fun a c => a * 10 + (c.toNat - '0'.toNat)) 0

/-- Core of Python `int(string)` after whitespace stripping: an optional
sign followed by a non-empty run of decimal digits; anything else raises
ValueError (modelled as `none`). -/
def pyIntCore : List Char → Option Int
  | '+' :: rest =>
    if !rest.isEmpty && rest.all Char.isDigit then some (digitsVal rest) else none
  | '-' :: rest =>
    if !rest.isEmpty && rest.all Char.isDigit then some (-(digitsVal rest : Int)) else none
  | rest =>
    if !rest.isEmpty && rest.all Char.isDigit then some (digitsVal rest) else none

/-- Python `int(s)`: strips whitespace, then parses an optionally signed
decimal integer; `none` models the ValueError raised otherwise. -/
def pyInt (s : String) : Option Int :=
  pyIntCore (pyStripWS s.data)

/-- Whitespace splitter used by Python `str.split()` with no argument:
runs of whitespace separate the tokens and empty tokens are dropped. -/
def wsSplit : List Char → List Char → List (List Char)
  | [], acc => if acc.isEmpty then [] else [acc.reverse]
  | c :: rest, acc =>
    if c.isWhitespace then
      if acc.isEmpty then wsSplit rest [] else acc.reverse :: wsSplit rest []
    else wsSplit rest (c :: acc)

/-- Python `s.split()` (no separator argument). -/
def splitWhitespace (s : String) : List String :=
  (wsSplit s.data []).map List.asString

/-- Python `s.rfind(c)`: index of the last occurrence of `c`, `-1` when
`c` does not occur. -/
def pyRfind (cs : List Char) (c : Char) : Int :=
  match cs.reverse.findIdx? (fun x => x = c) with
  | none => -1
  | some j => ((cs.length - 1 - j : Nat) : Int)

/-- Python `os.path.splitext`: split off the extension at the last dot of
the final path component, except when that component consists only of
leading dots up to the dot (hidden files such as `.profile` keep their
name whole). -/
def pySplitext (s : String) : String × String :=
  let cs := s.data
  let sepIdx := pyRfind cs '/'
  let dotIdx := pyRfind cs '.'
  if sepIdx < dotIdx then
    let start := (sepIdx + 1).toNat
    let stop := dotIdx.toNat
    if ((cs.drop start).take (stop - start)).any (fun ch => ch ≠ '.') then
      ((cs.take stop).asString, (cs.drop stop).asString)
    else (s, "")
  else (s, "")

/-- Python `s[-2:]`: the last two characters (the whole string when it is
shorter than two characters). -/
def pySliceLast2 (s : String) : String :=
  (s.data.drop (s.data.length - 2)).asString

/-- Embedding of `set_vent_location_in_windfield` (interface.py lines
355-373): read all lines, overwrite line 1 with
`'%s %s\n' % (easting, northing)`, write all lines back.  An empty file
makes the `lines[0]` assignment raise IndexError. -/
def set_vent_location_in_windfield (vent_location_easting vent_location_northing : String)
    (lines : List String) : Except PatchErr (List String) :=
  match lines with
  | [] => .error .indexError
  | _ :: restLines =>
    .ok ((vent_location_easting ++ " " ++ vent_location_northing ++ "\n") :: restLines)

/-- Embedding of `set_timeblocks_in_windfield` (interface.py lines
376-415): parse the last two characters of the filename's base name as
the start hour with Python `int` (ValueError when they are not an
integer), then overwrite line 3 with
`'%i %i\n' % (starthour*3600, (starthour+6)*3600)`.  The `int()` call
happens before the file is read, so ValueError takes precedence over the
IndexError of the `lines[2]` assignment on a too-short file. -/
def set_timeblocks_in_windfield (filename : String) (lines : List String) :
    Except PatchErr (List String) :=
  let basename := (pySplitext filename).1
  match pyInt (pySliceLast2 basename) with
  | none => .error .valueError
  | some starthour =>
    let startsec := starthour * 3600
    let endsec := (starthour + 6) * 3600
    if 3 ≤ lines.length then
      .ok (lines.set 2 (toString startsec ++ " " ++ toString endsec ++ "\n"))
    else
      .error .indexError

/-- Exception outcomes of `join_sorted_windprofiles`: IndexError from the
`lines[k]` header accesses, ValueError from `int()` or tuple unpacking,
AssertionError from the `assert len(lines[4:]) == num_layers` check. -/
inductive JoinErr where
  | indexError
  | valueError
  | assertionError
deriving DecidableEq

/-- Embedding of `seconds_start, seconds_end = [int(x) for x in lines[2].split()]`:
whitespace-split the line, `int`-parse every token, and require exactly
two of them (any failure is a ValueError). -/
def parseTwoInts (s : String) : Option (Int × Int) :=
  match (splitWhitespace s).map pyInt with
  | [some a, some b] => some (a, b)
  | _ => none

/-- Header parse done for the first file of `join_sorted_windprofiles`
(interface.py lines 435-439): `vent_loc = lines[0]`, `date = lines[1]`,
the two time-block seconds from `lines[2]`, `num_layers = int(lines[3])`.
Access order matches the Python statements, so a three-line file fails
with IndexError at `lines[3]` only after `lines[2]` parsed. -/
def parseFirst (lines : List String) : Except JoinErr (String × String × Int × Int × Int) :=
  match lines with
  | l0 :: l1 :: l2 :: rest2 =>
    match parseTwoInts l2 with
    | none => .error .valueError
    | some (s, e) =>
      match rest2 with
      | l3 :: _ =>
        match pyInt l3 with
        | none => .error .valueError
        | some nl => .ok (l0, l1, s, e, nl)
      | [] => .error .indexError
  | _ => .error .indexError

/-- Output line `'%i %i\n' % (seconds_start, seconds_end)`. -/
def formatTimeLine (s e : Int) : String :=
  toString s ++ " " ++ toString e ++ "\n"

/-- Output line `'%i\n' % num_layers`. -/
def formatLayerLine (n : Int) : String :=
  toString n ++ "\n"

/-- Per-file body of the `join_sorted_windprofiles` loop (interface.py
lines 445-457), carrying the loop state `(seconds_start, seconds_end,
num_layers)`: write the time line and the layer-count line, assert that
the data lines `lines[4:]` number `num_layers`, write them verbatim, then
advance the time block by `seconds_end` and `seconds_end + 6*3600`.
`num_layers` is the value read from the FIRST file and is never re-read. -/
def writeBlocks (seconds_start seconds_end num_layers : Int) :
    List (List String) → Except JoinErr (List String)
  | [] => .ok []
  | lines :: rest =>
    if ((lines.drop 4).length : Int) = num_layers then
      match writeBlocks seconds_end (seconds_end + 6 * 3600) num_layers rest with
      | .error err => .error err
      | .ok tail =>
        .ok (formatTimeLine seconds_start seconds_end ::
             formatLayerLine num_layers :: (lines.drop 4 ++ tail))
    else .error .assertionError

/-- Embedding of `join_sorted_windprofiles` (interface.py lines 422-459):
the first file contributes the vent-location and date header and the
initial `(seconds_start, seconds_end, num_layers)`; every file then
contributes one block through `writeBlocks`. -/
def join_sorted_windprofiles : List (List String) → Except JoinErr (List String)
  | [] => .ok []
  | lines0 :: rest =>
    match parseFirst lines0 with
    | .error err => .error err
    | .ok (vent_loc, date, seconds_start, seconds_end, num_layers) =>
      match writeBlocks seconds_start seconds_end num_layers (lines0 :: rest) with
      | .error err => .error err
      | .ok body => .ok (vent_loc :: date :: body)

/-- Modelled from the spec (section 4.3): the time range the spec assigns
to block `k` of a stitched profile — block 0 carries the first file's
recorded range, and block `k+1` starts where block `k` ends and lasts a
fixed 21600 seconds. -/
def specBlockTimes (s e : Int) : Nat → Int × Int
  | 0 => (s, e)
  | k + 1 => ((specBlockTimes s e k).2, (specBlockTimes s e k).2 + 21600)

/-- Replace the recorded time-range line (line 3) of the file at position
`j` of a file list with an arbitrary string; used to state that the
stitcher ignores the recorded time ranges of non-first files. -/
def replaceTimeHeader : List (List String) → Nat → String → List (List String)
  | [], _, _ => []
  | f :: rest, 0, x => f.set 2 x :: rest
  | f :: rest, j + 1, x => f :: replaceTimeHeader rest j x

/-- Parameter values of a scenario `params` dictionary: tuples denote a
sweep over several values, anything else is scalar.  Scalar payloads are
kept as strings since only identity matters to the expansion. -/
inductive PVal where
  | scalar : String → PVal
  | multi : List String → PVal
deriving DecidableEq

/-- A scenario parameter dictionary, as an association list in the
dictionary's (deterministic) iteration order. -/
abbrev ParamSet := List (String × PVal)

/-- Test used by `type(p) is tuple` in `_run_scenario`. -/
def PVal.isMulti : PVal → Bool
  | .multi _ => true
  | .scalar _ => false

/-- First parameter (in iteration order) whose value is a tuple, as found
by the `for name in params` loop of `_run_scenario` (lines 226-228). -/
def findMulti : ParamSet → Option (String × List String)
  | [] => none
  | (n, .multi vs) :: _ => some (n, vs)
  | _ :: rest => findMulti rest

/-- Embedding of `params_unpacked = params.copy(); params_unpacked[name] = value`:
rebind `name` in the dictionary. -/
def setParam (ps : ParamSet) (name : String) (v : PVal) : ParamSet :=
  ps.map (fun e => if e.1 = name then (e.1, v) else e)

/-- Number of tuple-valued parameters; each recursion level of
`_run_scenario` pins one of them, so this bounds the recursion depth. -/
def multiCount (ps : ParamSet) : Nat :=
  ps.countP (fun e => e.2.isMulti)

/-- Product of the lengths of the tuple-valued parameters: the number of
terminal runs the expansion should produce. -/
def expandedCount (ps : ParamSet) : Nat :=
  ps.foldr (fun e acc => match e.2 with | .multi vs => vs.length * acc | .scalar _ => acc) 1

/-- Fuel-indexed embedding of the tuple-unpacking recursion of
`_run_scenario` (interface.py lines 224-248): if some parameter holds a
tuple, pin it to each of its values in turn, extend the dircomment with
`'_%s_%s' % (name, value)` and recurse; otherwise the parameter set is a
terminal run.  The fuel only bounds the recursion depth: each level
removes one tuple-valued parameter, exactly as the Python recursion
terminates, and `expand_runs` below supplies sufficient fuel
(`expandFuel_congr` proves the value is fuel-independent from
`multiCount ps` upward). -/
def expandFuel : Nat → ParamSet → String → List (ParamSet × String)
  | 0, ps, dircomment => [(ps, dircomment)]
  | fuel + 1, ps, dircomment =>
    match findMulti ps with
    | none => [(ps, dircomment)]
    | some (name, vs) =>
      (vs.map (fun value =>
        expandFuel fuel (setParam ps name (.scalar value))
          (dircomment ++ "_" ++ name ++ "_" ++ value))).flatten

/-- The terminal `(params, dircomment)` runs produced by `_run_scenario`
for a given parameter set and initial dircomment. -/
def expand_runs (ps : ParamSet) (dircomment : String) : List (ParamSet × String) :=
  expandFuel (multiCount ps) ps dircomment

/-- Python `s.endswith(suffix)`, computed on the character lists (the
library's `String.endsWith` goes through `Substring` primitives that the
kernel cannot evaluate). -/
def pyEndsWith (s suffix : String) : Bool :=
  suffix.data.isSuffixOf s.data

/-- Observable state of the per-rank work loop of
`run_multiple_windfields` (interface.py lines 678-736): the two counters
of the source plus, as embedding instrumentation, the list of global
indices for which the rank entered the `i % P == p` branch and the
`(index, filename)` units it actually processed. -/
structure LoopState where
  countAll : Nat
  countLocal : Nat
  assigned : List Nat
  processed : List (Nat × String)
deriving DecidableEq

/-- Embedding of `for i, file in enumerate(os.listdir(windfield_directory))`
(interface.py lines 680-736), carrying the running index `i`:
`count_all` is incremented for every entry; when `i % P == p` the index
is assigned to this rank, and the unit is processed only when the entry
has the `.profile` suffix (otherwise `continue`). -/
def windLoopAux (P p : Nat) : Nat → LoopState → List String → LoopState
  | _, st, [] => st
  | i, st, file :: rest =>
    let st1 : LoopState := { st with countAll := st.countAll + 1 }
    if i % P == p then
      let st2 : LoopState := { st1 with assigned := st1.assigned ++ [i] }
      if pyEndsWith file ".profile" then
        windLoopAux P p (i + 1)
          { st2 with countLocal := st2.countLocal + 1,
                     processed := st2.processed ++ [(i, file)] } rest
      else
        windLoopAux P p (i + 1) st2 rest
    else
      windLoopAux P p (i + 1) st1 rest

/-- The work loop of rank `p` in a group of size `P` over a directory
listing. -/
def windLoop (P p : Nat) (listing : List String) : LoopState :=
  windLoopAux P p 0 { countAll := 0, countLocal := 0, assigned := [], processed := [] } listing

/-- Closed form of the processed units of the loop, starting at index
`i`: the `(index, entry)` pairs whose index is congruent to `p` mod `P`
and whose entry carries the `.profile` suffix. -/
def profileUnits (P p : Nat) : Nat → List String → List (Nat × String)
  | _, [] => []
  | i, file :: rest =>
    if (i % P == p) && pyEndsWith file ".profile" then
      (i, file) :: profileUnits P p (i + 1) rest
    else
      profileUnits P p (i + 1) rest

/-- Embedding of the broadcast loop of rank 0 (interface.py lines
648-649): `for i in range(P): pypar.send(hazard_output_folder, i)` — one
`(destination, payload)` message per iteration. -/
def broadcastSends (P : Nat) (hazard_output_folder : String) : List (Nat × String) :=
  (List.range P).map (fun i => (i, hazard_output_folder))

/-- Embedding of `hazard_output_folder = pypar.receive(0)` on a rank
`p ≠ 0` (interface.py line 652): the payload of the message rank 0
addressed to `p`. -/
def receiveFromRank0 (P : Nat) (hazard_output_folder : String) (p : Nat) : Option String :=
  (((broadcastSends P hazard_output_folder).filter (fun m => m.1 == p)).head?).map Prod.snd

/-- Exception outcome of using the name `pypar` when `import pypar`
failed: Python raises NameError at the first attribute access. -/
inductive PyparError where
  | nameError
deriving DecidableEq

/-- One call through the `pypar` module object: succeeds when the import
succeeded, raises NameError when the `except` branch was taken and the
name `pypar` is unbound. -/
def pyparCall (avail : Bool) : Except PyparError Unit :=
  if avail then .ok () else .error .nameError

/-- The `for i in range(P): pypar.send(...)` loop of rank 0: with `P = 0`
the body never runs; otherwise each iteration dereferences `pypar`, which
raises NameError when the import failed. -/
def sendLoop (avail : Bool) (P : Nat) (hazard_output_folder : String) :
    Except PyparError (List (Nat × String)) :=
  if P = 0 then .ok []
  else if avail then .ok (broadcastSends P hazard_output_folder)
  else .error .nameError

/-- Size and rank the MPI runtime would report when pypar is available. -/
structure MpiEnv where
  size : Nat
  rank : Nat

/-- Control-flow embedding of `run_multiple_windfields` (interface.py
lines 601-746).  `avail` is whether `import pypar` succeeded; on failure
the `except` branch sets `P = 1, p = 0` but leaves the name `pypar`
unbound, so every later `pypar.…` call raises NameError.  Filesystem and
engine side effects are outside the model; the returned value is
`(P, p, final loop state)`. -/
def run_multiple_windfields (avail : Bool) (env : MpiEnv) (listing : List String)
    (hazard_output_folder : String) : Except PyparError (Nat × Nat × LoopState) := do
  let P := if avail then env.size else 1
  let p := if avail then env.rank else 0
  let _ ← if avail then pyparCall avail else .ok ()
  let _ ← if p = 0 then do
      let _ ← sendLoop avail P hazard_output_folder
      pure ()
    else do
      let _ ← pyparCall avail
      pure ()
  let _ ← pyparCall avail
  let st := windLoop P p listing
  let _ ← pyparCall avail
  let _ ← pyparCall avail
  pure (P, p, st)

/-- The conclusion of the stitcher time-range claim for a successful run
`join_sorted_windprofiles files = .ok out` whose first file recorded the
range `(s, e)` and layer count `nl`: every block's time line carries the
spec cadence `specBlockTimes`, that cadence starts at the first file's
recorded range and is contiguous with a 21600-second step, and replacing
the recorded time-range line of any non-first file never changes the
output. -/
def C4Concl (files : List (List String)) (out : List String) (s e nl : Int) : Prop :=
  (∀ k, k < files.length →
      out[2 + k * (2 + nl.toNat)]? =
        some (formatTimeLine (specBlockTimes s e k).1 (specBlockTimes s e k).2))
  ∧ specBlockTimes s e 0 = (s, e)
  ∧ (∀ k, (specBlockTimes s e (k + 1)).1 = (specBlockTimes s e k).2
        ∧ (specBlockTimes s e (k + 1)).2 = (specBlockTimes s e k).2 + 21600)
  ∧ (∀ j x, join_sorted_windprofiles (replaceTimeHeader files (j + 1) x) = .ok out)

/-- Concrete wind-profile file with 2 layers covering seconds 0-21600. -/
def windA : List String :=
  ["658000 9200000\n", "20090913\n", "0 21600\n", "2\n", "L1\n", "L2\n"]

/-- Concrete second wind-profile file, 2 layers, recording the (ignored)
range 900-1000. -/
def windB : List String :=
  ["658000 9200000\n", "20090913\n", "900 1000\n", "2\n", "M1\n", "M2\n"]

/-- Concrete second file whose own header declares 3 layers while only 2
data lines follow — its declared count disagrees with its content. -/
def windBbad : List String :=
  ["658000 9200000\n", "20090913\n", "5 6\n", "3\n", "c1\n", "c2\n"]

/-- Concrete second file with a single data line (disagreeing with the
first file's layer count of 2). -/
def windBshort : List String :=
  ["658000 9200000\n", "20090913\n", "5 6\n", "1\n", "only\n"]

/-- Expected stitch of `windA` and `windB`. -/
def stitchedAB : List String :=
  ["658000 9200000\n", "20090913\n", "0 21600\n", "2\n", "L1\n", "L2\n",
   "21600 43200\n", "2\n", "M1\n", "M2\n"]

/-- Stitch of `windA` and `windBbad` that the code actually produces:
the mismatch of `windBbad`'s own declared layer count goes undetected and
the first file's count `2` is written for the second block. -/
def stitchedABbad : List String :=
  ["658000 9200000\n", "20090913\n", "0 21600\n", "2\n", "L1\n", "L2\n",
   "21600 43200\n", "2\n", "c1\n", "c2\n"]

/-! ### Scheduler lemmas -/

theorem windLoopAux_eq (P p : Nat) (l : List String) : ∀ (i : Nat) (st : LoopState),
    windLoopAux P p i st l =
      { countAll := st.countAll + l.length,
        countLocal := st.countLocal + (profileUnits P p i l).length,
        assigned := st.assigned ++ (List.range' i l.length).filter (fun j => j % P == p),
        processed := st.processed ++ profileUnits P p i l } := by
  induction l with
  | nil => intro i st; simp [windLoopAux, profileUnits]
  | cons f rest ih =>
    intro i st
    have hrange : List.range' i (f :: rest).length = i :: List.range' (i + 1) rest.length := by
      rw [List.length_cons, List.range'_succ]
    cases hm : (i % P == p) with
    | false =>
      have hpu : profileUnits P p i (f :: rest) = profileUnits P p (i + 1) rest := by
        simp [profileUnits, hm]
      have hw : windLoopAux P p i st (f :: rest) =
          windLoopAux P p (i + 1) { st with countAll := st.countAll + 1 } rest := by
        simp [windLoopAux, hm]
      rw [hw, ih, hpu, hrange, List.filter_cons]
      simp [hm, LoopState.mk.injEq, List.append_assoc]
      omega
    | true =>
      cases he : pyEndsWith f ".profile" with
      | false =>
        have hpu : profileUnits P p i (f :: rest) = profileUnits P p (i + 1) rest := by
          simp [profileUnits, hm, he]
        have hw : windLoopAux P p i st (f :: rest) =
            windLoopAux P p (i + 1)
              { st with countAll := st.countAll + 1, assigned := st.assigned ++ [i] } rest := by
          simp [windLoopAux, hm, he]
        rw [hw, ih, hpu, hrange, List.filter_cons]
        simp [hm, LoopState.mk.injEq, List.append_assoc]
        omega
      | true =>
        have hpu : profileUnits P p i (f :: rest) = (i, f) :: profileUnits P p (i + 1) rest := by
          simp [profileUnits, hm, he]
        have hw : windLoopAux P p i st (f :: rest) =
            windLoopAux P p (i + 1)
              { st with countAll := st.countAll + 1, countLocal := st.countLocal + 1,
                        assigned := st.assigned ++ [i],
                        processed := st.processed ++ [(i, f)] } rest := by
          simp [windLoopAux, hm, he]
        rw [hw, ih, hpu, hrange, List.filter_cons]
        simp [hm, LoopState.mk.injEq, List.append_assoc]
        omega

theorem profileUnits_mem (P p : Nat) (l : List String) : ∀ (i j : Nat) (f : String),
    ((j, f) ∈ profileUnits P p i l) ↔
      ∃ k, j = i + k ∧ l[k]? = some f ∧ j % P = p ∧ pyEndsWith f ".profile" = true := by
  induction l with
  | nil => intro i j f; simp [profileUnits]
  | cons g rest ih =>
    intro i j f
    simp only [profileUnits]
    cases hc : (i % P == p) && pyEndsWith g ".profile" with
    | true =>
      rw [if_pos rfl, List.mem_cons, ih]
      rw [Bool.and_eq_true, beq_iff_eq] at hc
      constructor
      · rintro (heq | ⟨k, rfl, hget, hmod, hend⟩)
        · rw [Prod.mk.injEq] at heq
          obtain ⟨rfl, rfl⟩ := heq
          exact ⟨0, by omega, by simp, hc.1, hc.2⟩
        · exact ⟨k + 1, by omega, by simpa using hget, hmod, hend⟩
      · rintro ⟨k, rfl, hget, hmod, hend⟩
        cases k with
        | zero =>
          left
          simp only [List.getElem?_cons_zero, Option.some.injEq] at hget
          simp [hget]
        | succ k =>
          right
          exact ⟨k, by omega, by simpa using hget, by simpa using hmod, hend⟩
    | false =>
      rw [if_neg (by simp), ih]
      constructor
      · rintro ⟨k, rfl, hget, hmod, hend⟩
        exact ⟨k + 1, by omega, by simpa using hget, by simpa using hmod, hend⟩
      · rintro ⟨k, rfl, hget, hmod, hend⟩
        cases k with
        | zero =>
          simp only [List.getElem?_cons_zero, Option.some.injEq] at hget
          subst hget
          simp only [Nat.add_zero] at hmod
          simp [hmod, hend] at hc
        | succ k =>
          exact ⟨k, by omega, by simpa using hget, hmod, hend⟩

theorem windLoop_eq (P p : Nat) (l : List String) :
    windLoop P p l =
      { countAll := l.length,
        countLocal := (profileUnits P p 0 l).length,
        assigned := (List.range l.length).filter (fun j => j % P == p),
        processed := profileUnits P p 0 l } := by
  rw [windLoop, windLoopAux_eq, List.range_eq_range']
  simp

theorem mem_assigned_windLoop (P p : Nat) (l : List String) (i : Nat) :
    i ∈ (windLoop P p l).assigned ↔ (i < l.length ∧ i % P = p) := by
  rw [windLoop_eq]
  simp [List.mem_filter, List.mem_range]

theorem mem_processed_windLoop (P p : Nat) (l : List String) (i : Nat) (f : String) :
    (i, f) ∈ (windLoop P p l).processed ↔
      (l[i]? = some f ∧ i % P = p ∧ pyEndsWith f ".profile" = true) := by
  rw [windLoop_eq]
  simp only
  rw [profileUnits_mem]
  constructor
  · rintro ⟨k, rfl, h⟩; simpa using h
  · rintro ⟨hget, hmod, hend⟩; exact ⟨i, by omega, hget, hmod, hend⟩

/-- C1: for every group size `P ≥ 1` and every wind-field directory
listing, the scheduler's cyclic partitioning assigns global index `i` to
exactly the rank `p` with `i % P = p`, so each index below the listing
length is assigned to exactly one rank and rank `p`'s assigned indices
are exactly those `i < N` with `i % P = p`; in particular with a 3-entry
listing and `P = 2`, rank 0 is assigned indices 0 and 2 and rank 1 is
assigned index 1. -/
theorem scheduler_partition_correct (P : Nat) (l : List String) (hP : 1 ≤ P) :
    (∀ i, i < l.length → ∃! p, p < P ∧ i ∈ (windLoop P p l).assigned)
    ∧ (∀ p i, i ∈ (windLoop P p l).assigned ↔ (i < l.length ∧ i % P = p))
    ∧ (windLoop 2 0 ["w0.profile", "w1.profile", "w2.profile"]).assigned = [0, 2]
    ∧ (windLoop 2 1 ["w0.profile", "w1.profile", "w2.profile"]).assigned = [1] := by
  refine ⟨?_, ?_, by decide, by decide⟩
  · intro i hi
    refine ⟨i % P, ⟨Nat.mod_lt i hP, ?_⟩, ?_⟩
    · rw [mem_assigned_windLoop]; exact ⟨hi, rfl⟩
    · rintro q ⟨_, hq⟩
      rw [mem_assigned_windLoop] at hq
      exact hq.2.symm
  · intro p i
    exact mem_assigned_windLoop P p l i

/-- Witness for `scheduler_partition_correct` at `P = 2` and the 3-entry
listing of the claim. -/
theorem scheduler_partition_correct_witness :
    (1 ≤ 2)
    ∧ ((∀ i, i < (["w0.profile", "w1.profile", "w2.profile"] : List String).length →
          ∃! p, p < 2 ∧ i ∈ (windLoop 2 p ["w0.profile", "w1.profile", "w2.profile"]).assigned)
      ∧ (∀ p i, i ∈ (windLoop 2 p ["w0.profile", "w1.profile", "w2.profile"]).assigned ↔
          (i < (["w0.profile", "w1.profile", "w2.profile"] : List String).length ∧ i % 2 = p))
      ∧ (windLoop 2 0 ["w0.profile", "w1.profile", "w2.profile"]).assigned = [0, 2]
      ∧ (windLoop 2 1 ["w0.profile", "w1.profile", "w2.profile"]).assigned = [1]) :=
  ⟨by decide, scheduler_partition_correct 2 ["w0.profile", "w1.profile", "w2.profile"] (by decide)⟩

/-- C10: the global indices and the `count_all` counter of
`run_multiple_windfields` range over all entries of the directory
listing, not only the `.profile` ones: `count_all` ends at the full
listing length for every rank, a unit is processed exactly when its index
is congruent to the rank mod `P` and its entry has the `.profile` suffix
(so an assigned non-`.profile` entry is skipped while still consuming its
index), and a non-`.profile` entry shifts the indices and hence the rank
assignment of the `.profile` entries after it, as the concrete 3-entry
listing with a leading non-profile entry shows. -/
theorem scheduler_counts_all_entries (P p : Nat) (l : List String) (hP : 1 ≤ P) :
    (windLoop P p l).countAll = l.length
    ∧ (∀ i f, (i, f) ∈ (windLoop P p l).processed ↔
        (l[i]? = some f ∧ i % P = p ∧ pyEndsWith f ".profile" = true))
    ∧ (windLoop 2 0 ["junk.txt", "a.profile", "b.profile"]).countAll = 3
    ∧ (windLoop 2 0 ["junk.txt", "a.profile", "b.profile"]).processed = [(2, "b.profile")]
    ∧ (windLoop 2 1 ["junk.txt", "a.profile", "b.profile"]).processed = [(1, "a.profile")]
    ∧ (windLoop 2 0 ["a.profile", "b.profile"]).processed = [(0, "a.profile")] := by
  refine ⟨?_, ?_, by decide, by decide, by decide, by decide⟩
  · rw [windLoop_eq]
  · intro i f
    exact mem_processed_windLoop P p l i f

/-- Witness for `scheduler_counts_all_entries` at `P = 2`, `p = 0` and the
mixed listing of the claim. -/
theorem scheduler_counts_all_entries_witness :
    (1 ≤ 2)
    ∧ ((windLoop 2 0 ["junk.txt", "a.profile", "b.profile"]).countAll =
        (["junk.txt", "a.profile", "b.profile"] : List String).length
      ∧ (∀ i f, (i, f) ∈ (windLoop 2 0 ["junk.txt", "a.profile", "b.profile"]).processed ↔
          ((["junk.txt", "a.profile", "b.profile"] : List String)[i]? = some f ∧ i % 2 = 0
            ∧ pyEndsWith f ".profile" = true))
      ∧ (windLoop 2 0 ["junk.txt", "a.profile", "b.profile"]).countAll = 3
      ∧ (windLoop 2 0 ["junk.txt", "a.profile", "b.profile"]).processed = [(2, "b.profile")]
      ∧ (windLoop 2 1 ["junk.txt", "a.profile", "b.profile"]).processed = [(1, "a.profile")]
      ∧ (windLoop 2 0 ["a.profile", "b.profile"]).processed = [(0, "a.profile")]) :=
  ⟨by decide, scheduler_counts_all_entries 2 0 ["junk.txt", "a.profile", "b.profile"] (by decide)⟩

/-! ### Broadcast of the shared output directory -/

theorem filter_range_eq_singleton {P p : Nat} (hp : p < P) :
    (List.range P).filter (fun i => i == p) = [p] := by
  induction P with
  | zero => omega
  | succ n ih =>
    rw [List.range_succ, List.filter_append]
    rcases Nat.lt_or_ge p n with h | h
    · rw [ih h]
      have : n ≠ p := by omega
      simp [this]
    · have : p = n := by omega
      subst this
      have : (List.range p).filter (fun i => i == p) = [] := by
        apply List.filter_eq_nil_iff.mpr
        intro a ha
        simp only [beq_iff_eq]
        have := List.mem_range.mp ha
        omega
      simp [this]

/-- C3 counterexample: with `P = 2`, the destinations of rank 0's send
loop `for i in range(P): pypar.send(hazard_output_folder, i)` are `[0, 1]`
— rank 0 sends the path to itself as well — and not `[1]`, the set
`{1..P-1}` the claim asserts. -/
theorem broadcast_destinations_counterexample :
    (broadcastSends 2 "out").map Prod.fst = [0, 1]
    ∧ (broadcastSends 2 "out").map Prod.fst ≠ [1]
    ∧ 0 ∈ (broadcastSends 2 "out").map Prod.fst := by
  decide

/-- C3 amended: rank 0 computes the shared hazard output path once and
sends it to every rank `i ∈ {0..P-1}` — including a self-send to rank 0 —
and every rank `p < P` other than 0, blocking on a receive from rank 0,
afterwards holds a path byte-identical to the one rank 0 computed. -/
theorem broadcast_path_identical (P : Nat) (hazard_output_folder : String) (p : Nat)
    (hp : p < P) :
    (broadcastSends P hazard_output_folder).map Prod.fst = List.range P
    ∧ receiveFromRank0 P hazard_output_folder p = some hazard_output_folder := by
  constructor
  · simp [broadcastSends, List.map_map, Function.comp_def]
  · rw [receiveFromRank0, broadcastSends]
    have : ((List.range P).map (fun i => (i, hazard_output_folder))).filter
        (fun m => m.1 == p) =
        ((List.range P).filter (fun i => i == p)).map (fun i => (i, hazard_output_folder)) := by
      rw [List.filter_map]
      rfl
    rw [this, filter_range_eq_singleton hp]
    rfl

/-- Witness for `broadcast_path_identical` at `P = 3`, `p = 2`. -/
theorem broadcast_path_identical_witness :
    (2 < 3)
    ∧ ((broadcastSends 3 "path").map Prod.fst = List.range 3
      ∧ receiveFromRank0 3 "path" 2 = some "path") :=
  ⟨by decide, broadcast_path_identical 3 "path" 2 (by decide)⟩

/-! ### Sequential fallback of run_multiple_windfields -/

/-- C2: when `import pypar` fails, `run_multiple_windfields` sets
`P = 1, p = 0` but the name `pypar` stays unbound, so the run crashes
with NameError at the first later `pypar` use (the send loop of rank 0,
line 649) instead of completing; with pypar available the same
control flow runs to completion.  This contradicts both the claim and the
code's own docstring ("can also run sequentially"). -/
theorem sequential_fallback_crashes :
    (∀ (env : MpiEnv) (listing : List String) (path : String),
      run_multiple_windfields false env listing path = .error .nameError)
    ∧ (∀ (env : MpiEnv) (listing : List String) (path : String),
      run_multiple_windfields true env listing path =
        .ok (env.size, env.rank, windLoop env.size env.rank listing)) := by
  constructor
  · intro env listing path
    rfl
  · intro env listing path
    by_cases h0 : env.rank = 0
    · by_cases hP : env.size = 0 <;>
        simp [run_multiple_windfields, pyparCall, sendLoop, h0, hP, bind, Except.bind, pure, Except.pure]
    · simp [run_multiple_windfields, pyparCall, sendLoop, h0, bind, Except.bind, pure, Except.pure]

/-! ### Wind-profile patcher -/

/-- C9: `set_vent_location_in_windfield` replaces line 1 of a (non-empty)
wind-profile file with `"<easting> <northing>"` and leaves every other
line byte-identical; the output has the same number of lines and agrees
with the input at every position from line 2 on. -/
theorem set_vent_location_frame (easting northing : String) (lines : List String)
    (h : lines ≠ []) :
    set_vent_location_in_windfield easting northing lines =
      .ok ((easting ++ " " ++ northing ++ "\n") :: lines.tail)
    ∧ ((easting ++ " " ++ northing ++ "\n") :: lines.tail).length = lines.length
    ∧ (∀ k, 1 ≤ k → ((easting ++ " " ++ northing ++ "\n") :: lines.tail)[k]? = lines[k]?) := by
  cases lines with
  | nil => exact absurd rfl h
  | cons l0 rest =>
    refine ⟨rfl, by simp, ?_⟩
    intro k hk
    obtain ⟨j, rfl⟩ : ∃ j, k = j + 1 := ⟨k - 1, by omega⟩
    simp

/-- Witness for `set_vent_location_frame` on a concrete 5-line file. -/
theorem set_vent_location_frame_witness :
    ((["100 200\n", "date\n", "time\n", "2\n", "rec\n"] : List String) ≠ [])
    ∧ (set_vent_location_in_windfield "E" "N" ["100 200\n", "date\n", "time\n", "2\n", "rec\n"] =
        .ok (("E" ++ " " ++ "N" ++ "\n") :: (["100 200\n", "date\n", "time\n", "2\n", "rec\n"] : List String).tail)
      ∧ (("E" ++ " " ++ "N" ++ "\n") :: (["100 200\n", "date\n", "time\n", "2\n", "rec\n"] : List String).tail).length =
          (["100 200\n", "date\n", "time\n", "2\n", "rec\n"] : List String).length
      ∧ (∀ k, 1 ≤ k →
          (("E" ++ " " ++ "N" ++ "\n") :: (["100 200\n", "date\n", "time\n", "2\n", "rec\n"] : List String).tail)[k]? =
            (["100 200\n", "date\n", "time\n", "2\n", "rec\n"] : List String)[k]?)) :=
  ⟨by decide,
    set_vent_location_frame "E" "N" ["100 200\n", "date\n", "time\n", "2\n", "rec\n"] (by decide)⟩

/-- C8: on a file with at least 3 lines, `set_timeblocks_in_windfield`
parses the final two characters of the filename's base name as an hour
`h` with Python `int` and rewrites line 3 to `"<h*3600> <(h+6)*3600>"`,
and it raises the fatal ValueError exactly when those two characters do
not form a valid integer; in particular a file named `…06.profile` gets
line 3 set to `"21600 43200"`. -/
theorem set_timeblocks_spec (filename : String) (lines : List String)
    (hlen : 3 ≤ lines.length) :
    (∀ h, pyInt (pySliceLast2 (pySplitext filename).1) = some h →
      set_timeblocks_in_windfield filename lines =
        .ok (lines.set 2 (toString (h * 3600) ++ " " ++ toString ((h + 6) * 3600) ++ "\n")))
    ∧ (pyInt (pySliceLast2 (pySplitext filename).1) = none →
      set_timeblocks_in_windfield filename lines = .error .valueError)
    ∧ set_timeblocks_in_windfield "ncep1_2009091306.profile" ["a\n", "b\n", "c\n", "d\n", "e\n"] =
        .ok ["a\n", "b\n", "21600 43200\n", "d\n", "e\n"] := by
  refine ⟨?_, ?_, by decide⟩
  · intro h hparse
    rw [set_timeblocks_in_windfield, hparse]
    simp [hlen]
  · intro hparse
    rw [set_timeblocks_in_windfield, hparse]

/-- Witness for `set_timeblocks_spec` on the `…06.profile` file of the
claim. -/
theorem set_timeblocks_spec_witness :
    (3 ≤ (["a\n", "b\n", "c\n", "d\n", "e\n"] : List String).length)
    ∧ pyInt (pySliceLast2 (pySplitext "ncep1_2009091306.profile").1) = some 6
    ∧ set_timeblocks_in_windfield "ncep1_2009091306.profile" ["a\n", "b\n", "c\n", "d\n", "e\n"] =
        .ok ((["a\n", "b\n", "c\n", "d\n", "e\n"] : List String).set 2
          (toString ((6 : Int) * 3600) ++ " " ++ toString (((6 : Int) + 6) * 3600) ++ "\n")) :=
  ⟨by decide, by decide,
    (set_timeblocks_spec "ncep1_2009091306.profile" ["a\n", "b\n", "c\n", "d\n", "e\n"]
      (by decide)).1 6 (by decide)⟩

/-! ### Stitcher lemmas -/

theorem specBlockTimes_shift (s e : Int) : ∀ k,
    specBlockTimes s e (k + 1) = specBlockTimes e (e + 21600) k
  | 0 => rfl
  | k + 1 => by
    rw [show specBlockTimes s e (k + 1 + 1) =
          ((specBlockTimes s e (k + 1)).2, (specBlockTimes s e (k + 1)).2 + 21600) from rfl,
        specBlockTimes_shift s e k]
    rfl

theorem drop4_set2 : ∀ (l : List String) (x : String), (l.set 2 x).drop 4 = l.drop 4
  | [], _ => rfl
  | [_], _ => rfl
  | [_, _], _ => rfl
  | _ :: _ :: _ :: _, _ => rfl

theorem writeBlocks_congr : ∀ (fs gs : List (List String)) (s e nl : Int),
    fs.map (List.drop 4) = gs.map (List.drop 4) → writeBlocks s e nl fs = writeBlocks s e nl gs := by
  intro fs
  induction fs with
  | nil =>
    intro gs s e nl h
    rw [List.map_nil] at h
    rw [(List.map_eq_nil_iff.mp h.symm : gs = [])]
  | cons f rest ih =>
    intro gs s e nl h
    cases gs with
    | nil => simp at h
    | cons g grest =>
      simp only [List.map_cons, List.cons.injEq] at h
      obtain ⟨h1, h2⟩ := h
      rw [writeBlocks, writeBlocks, h1, ih grest e (e + 6 * 3600) nl h2]

theorem replaceTimeHeader_map_drop4 : ∀ (fs : List (List String)) (j : Nat) (x : String),
    (replaceTimeHeader fs j x).map (List.drop 4) = fs.map (List.drop 4) := by
  intro fs
  induction fs with
  | nil => intro j x; cases j <;> rfl
  | cons f rest ih =>
    intro j x
    cases j with
    | zero => simp [replaceTimeHeader, drop4_set2]
    | succ j => simp [replaceTimeHeader, ih]

theorem join_cons_eq (lines0 : List String) (rest : List (List String)) (v d : String)
    (s e nl : Int) (hp : parseFirst lines0 = .ok (v, d, s, e, nl)) :
    join_sorted_windprofiles (lines0 :: rest) =
      match writeBlocks s e nl (lines0 :: rest) with
      | .error err => .error err
      | .ok body => .ok (v :: d :: body) := by
  rw [join_sorted_windprofiles, hp]

theorem writeBlocks_ok_getElem : ∀ (fs : List (List String)) (s e nl : Int) (body : List String),
    writeBlocks s e nl fs = .ok body →
    ∀ k, k < fs.length →
      body[k * (2 + nl.toNat)]? =
        some (formatTimeLine (specBlockTimes s e k).1 (specBlockTimes s e k).2) := by
  intro fs
  induction fs with
  | nil => intro s e nl body _ k hk; simp at hk
  | cons f rest ih =>
    intro s e nl body h k hk
    rw [writeBlocks] at h
    by_cases hc : ((f.drop 4).length : Int) = nl
    · rw [if_pos hc] at h
      cases hrec : writeBlocks e (e + 6 * 3600) nl rest with
      | error err => rw [hrec] at h; exact absurd h (by simp)
      | ok tail =>
        rw [hrec] at h
        have hbody : body = formatTimeLine s e :: formatLayerLine nl :: (f.drop 4 ++ tail) := by
          cases h; rfl
        subst hbody
        have hL : (f.drop 4).length = nl.toNat := by
          rw [← hc, Int.toNat_natCast]
        cases k with
        | zero => simp [specBlockTimes]
        | succ k =>
          have hsplit : formatTimeLine s e :: formatLayerLine nl :: (f.drop 4 ++ tail) =
              (formatTimeLine s e :: formatLayerLine nl :: f.drop 4) ++ tail := by
            simp
          have hlen : (formatTimeLine s e :: formatLayerLine nl :: f.drop 4).length =
              2 + nl.toNat := by
            simp [hL]; omega
          rw [hsplit,
            show (k + 1) * (2 + nl.toNat) = (2 + nl.toNat) + k * (2 + nl.toNat) by ring,
            List.getElem?_append_right (by rw [hlen]; omega), hlen,
            show (2 + nl.toNat) + k * (2 + nl.toNat) - (2 + nl.toNat) = k * (2 + nl.toNat) by omega,
            specBlockTimes_shift,
            show (e + 21600 : Int) = e + 6 * 3600 by norm_num]
          exact ih e (e + 6 * 3600) nl tail hrec k (by simpa using hk)
    · rw [if_neg hc] at h
      exact absurd h (by simp)

theorem writeBlocks_error_assertion : ∀ (fs : List (List String)) (s e nl : Int) (err : JoinErr),
    writeBlocks s e nl fs = .error err → err = .assertionError := by
  intro fs
  induction fs with
  | nil => intro s e nl err h; exact absurd h (by simp [writeBlocks])
  | cons f rest ih =>
    intro s e nl err h
    rw [writeBlocks] at h
    by_cases hc : ((f.drop 4).length : Int) = nl
    · rw [if_pos hc] at h
      cases hrec : writeBlocks e (e + 6 * 3600) nl rest with
      | error err2 =>
        rw [hrec] at h
        cases h
        exact ih e (e + 6 * 3600) nl err hrec
      | ok tail => rw [hrec] at h; exact absurd h (by simp)
    · rw [if_neg hc] at h
      cases h
      rfl

theorem writeBlocks_error_iff : ∀ (fs : List (List String)) (s e nl : Int),
    writeBlocks s e nl fs = .error .assertionError ↔
      ∃ f ∈ fs, ((f.drop 4).length : Int) ≠ nl := by
  intro fs
  induction fs with
  | nil => intro s e nl; simp [writeBlocks]
  | cons f rest ih =>
    intro s e nl
    rw [writeBlocks]
    by_cases hc : ((f.drop 4).length : Int) = nl
    · rw [if_pos hc]
      cases hrec : writeBlocks e (e + 6 * 3600) nl rest with
      | error err =>
        have herr := writeBlocks_error_assertion _ _ _ _ _ hrec
        subst herr
        refine iff_of_true rfl ?_
        obtain ⟨g, hg, hne⟩ := (ih e (e + 6 * 3600) nl).mp hrec
        exact ⟨g, List.mem_cons_of_mem f hg, hne⟩
      | ok tail =>
        refine iff_of_false (by simp) ?_
        rintro ⟨g, hg, hne⟩
        rcases List.mem_cons.mp hg with rfl | hg
        · exact hne hc
        · have := (ih e (e + 6 * 3600) nl).mpr ⟨g, hg, hne⟩
          rw [this] at hrec
          cases hrec
    · rw [if_neg hc]
      exact iff_of_true rfl ⟨f, List.mem_cons_self f rest, hc⟩

/-! ### Stitcher claims -/

/-- C4: on a successful stitch of a non-empty file sequence whose first
file records `(s, e)`, the first output block's time-range line carries
exactly `(s, e)`, every later block's time line follows the
`specBlockTimes` cadence (`start = previous end`, `end = start + 21600`),
adjacent blocks are therefore contiguous, and replacing the recorded
time-range line of any non-first source file leaves the output
unchanged — the stitcher ignores those recorded ranges. -/
theorem stitcher_time_ranges (lines0 : List String) (rest : List (List String))
    (out : List String) (v d : String) (s e nl : Int)
    (hj : join_sorted_windprofiles (lines0 :: rest) = .ok out)
    (hp : parseFirst lines0 = .ok (v, d, s, e, nl)) :
    C4Concl (lines0 :: rest) out s e nl := by
  rw [join_cons_eq lines0 rest v d s e nl hp] at hj
  cases hw : writeBlocks s e nl (lines0 :: rest) with
  | error err => rw [hw] at hj; exact absurd hj (by simp)
  | ok body =>
    rw [hw] at hj
    have hout : out = v :: d :: body := by cases hj; rfl
    subst hout
    refine ⟨?_, rfl, fun k => ⟨rfl, rfl⟩, ?_⟩
    · intro k hk
      rw [show 2 + k * (2 + nl.toNat) = k * (2 + nl.toNat) + 1 + 1 by omega,
        List.getElem?_cons_succ, List.getElem?_cons_succ]
      exact writeBlocks_ok_getElem _ _ _ _ _ hw k hk
    · intro j x
      rw [show replaceTimeHeader (lines0 :: rest) (j + 1) x =
            lines0 :: replaceTimeHeader rest j x from rfl,
        join_cons_eq lines0 (replaceTimeHeader rest j x) v d s e nl hp,
        writeBlocks_congr (lines0 :: replaceTimeHeader rest j x) (lines0 :: rest) s e nl
          (by simp [replaceTimeHeader_map_drop4]),
        hw]

/-- Witness for `stitcher_time_ranges`: stitching the two concrete 2-layer
files `windA` (recording 0-21600) and `windB` (recording the ignored
range 900-1000) yields `stitchedAB`, whose second block is 21600-43200. -/
theorem stitcher_time_ranges_witness :
    join_sorted_windprofiles [windA, windB] = .ok stitchedAB
    ∧ parseFirst windA = .ok ("658000 9200000\n", "20090913\n", 0, 21600, 2)
    ∧ C4Concl [windA, windB] stitchedAB 0 21600 2 :=
  ⟨by decide, by decide,
    stitcher_time_ranges windA [windB] stitchedAB "658000 9200000\n" "20090913\n" 0 21600 2
      (by decide) (by decide)⟩

/-- C5 counterexample: `windBbad`'s own declared layer count (line 4,
`"3\n"`, i.e. 3) differs from its 2 data lines, yet stitching
`[windA, windBbad]` does NOT raise — it succeeds and silently writes the
FIRST file's layer count 2 for the second block, refuting the claim that
a mismatch between a file's own declared layerCount and its data lines
always raises a fatal error. -/
theorem stitcher_own_layercount_counterexample :
    windBbad[3]? = some "3\n"
    ∧ pyInt "3\n" = some 3
    ∧ (windBbad.drop 4).length = 2
    ∧ join_sorted_windprofiles [windA, windBbad] = .ok stitchedABbad := by
  decide

/-- C5 amended: the stitcher checks every file's data-line count against
the FIRST file's declared layer count `nl` (the only one it ever reads):
given a parsable first file, stitching raises the fatal AssertionError
iff some input file's number of data lines differs from `nl`; a non-first
file's own declared layer count is never consulted. -/
theorem stitcher_mismatch_fatal (lines0 : List String) (rest : List (List String))
    (v d : String) (s e nl : Int) (hp : parseFirst lines0 = .ok (v, d, s, e, nl)) :
    join_sorted_windprofiles (lines0 :: rest) = .error .assertionError ↔
      ∃ f ∈ lines0 :: rest, ((f.drop 4).length : Int) ≠ nl := by
  rw [join_cons_eq lines0 rest v d s e nl hp]
  cases hw : writeBlocks s e nl (lines0 :: rest) with
  | error err =>
    have herr := writeBlocks_error_assertion _ _ _ _ _ hw
    subst herr
    exact iff_of_true rfl ((writeBlocks_error_iff _ _ _ _).mp hw)
  | ok body =>
    refine iff_of_false (by simp) ?_
    intro hex
    have := (writeBlocks_error_iff (lines0 :: rest) s e nl).mpr hex
    rw [this] at hw
    cases hw

/-- Witness for `stitcher_mismatch_fatal`: with first file `windA`
(declared layer count 2) and second file `windBshort` (one data line),
the stitch raises AssertionError, matching the existence of a mismatch. -/
theorem stitcher_mismatch_fatal_witness :
    parseFirst windA = .ok ("658000 9200000\n", "20090913\n", 0, 21600, 2)
    ∧ (join_sorted_windprofiles [windA, windBshort] = .error .assertionError ↔
        ∃ f ∈ [windA, windBshort], ((f.drop 4).length : Int) ≠ 2) :=
  ⟨by decide,
    stitcher_mismatch_fatal windA [windBshort] "658000 9200000\n" "20090913\n" 0 21600 2
      (by decide)⟩

/-! ### Expander lemmas -/

theorem findMulti_cons_scalar (n sc : String) (rest : ParamSet) :
    findMulti ((n, PVal.scalar sc) :: rest) = findMulti rest := rfl

theorem findMulti_cons_multi (n : String) (ws : List String) (rest : ParamSet) :
    findMulti ((n, PVal.multi ws) :: rest) = some (n, ws) := rfl

theorem expandedCount_cons_scalar (n sc : String) (rest : ParamSet) :
    expandedCount ((n, PVal.scalar sc) :: rest) = expandedCount rest := rfl

theorem expandedCount_cons_multi (n : String) (ws : List String) (rest : ParamSet) :
    expandedCount ((n, PVal.multi ws) :: rest) = ws.length * expandedCount rest := rfl

theorem findMulti_eq_none_iff : ∀ (ps : ParamSet),
    findMulti ps = none ↔ ∀ e ∈ ps, e.2.isMulti = false := by
  intro ps
  induction ps with
  | nil => simp [findMulti]
  | cons hd rest ih =>
    obtain ⟨n, pv⟩ := hd
    cases pv with
    | scalar sc => simp [findMulti_cons_scalar, ih, PVal.isMulti]
    | multi ws => simp [findMulti_cons_multi, PVal.isMulti]

theorem multiCount_eq_zero_iff (ps : ParamSet) : multiCount ps = 0 ↔ findMulti ps = none := by
  rw [multiCount, List.countP_eq_zero, findMulti_eq_none_iff]
  constructor <;> intro h e he <;> simpa using h e he

theorem setParam_map_fst (ps : ParamSet) (name : String) (v : PVal) :
    (setParam ps name v).map Prod.fst = ps.map Prod.fst := by
  rw [setParam, List.map_map]
  apply List.map_congr_left
  intro e _
  by_cases h : e.1 = name <;> simp [h]

theorem findMulti_mem : ∀ (ps : ParamSet) (name : String) (vs : List String),
    findMulti ps = some (name, vs) → (name, PVal.multi vs) ∈ ps := by
  intro ps
  induction ps with
  | nil => intro name vs h; simp [findMulti] at h
  | cons hd rest ih =>
    intro name vs h
    obtain ⟨n, pv⟩ := hd
    cases pv with
    | scalar sc =>
      rw [findMulti_cons_scalar] at h
      exact List.mem_cons_of_mem _ (ih name vs h)
    | multi ws =>
      rw [findMulti_cons_multi] at h
      cases h
      exact List.mem_cons_self _ _

theorem setParam_not_mem : ∀ (ps : ParamSet) (name : String) (v : PVal),
    name ∉ ps.map Prod.fst → setParam ps name v = ps := by
  intro ps name v h
  induction ps with
  | nil => rfl
  | cons hd rest ih =>
    simp only [List.map_cons, List.mem_cons] at h
    push_neg at h
    simp only [setParam, List.map_cons]
    rw [if_neg (fun he => h.1 he.symm)]
    congr 1
    simpa [setParam] using ih h.2

theorem multiCount_setParam_le (ps : ParamSet) (name sc : String) :
    multiCount (setParam ps name (.scalar sc)) ≤ multiCount ps := by
  rw [multiCount, multiCount, setParam, List.countP_map]
  apply List.countP_mono_left
  intro e _ h
  by_cases hn : e.1 = name
  · simp [Function.comp, hn, PVal.isMulti] at h
  · simpa [Function.comp, hn] using h

theorem multiCount_cons (e : String × PVal) (l : ParamSet) :
    multiCount (e :: l) = multiCount l + (if e.2.isMulti then 1 else 0) := by
  simp [multiCount, List.countP_cons]

theorem setParam_cons (n : String) (pv : PVal) (rest : ParamSet) (name : String) (w : PVal) :
    setParam ((n, pv) :: rest) name w =
      (if n = name then (n, w) else (n, pv)) :: setParam rest name w := by
  by_cases hn : n = name <;> simp [setParam, hn]

theorem multiCount_setParam_lt : ∀ (ps : ParamSet) (name : String) (vs : List String)
    (sc : String), findMulti ps = some (name, vs) →
    multiCount (setParam ps name (.scalar sc)) < multiCount ps := by
  intro ps
  induction ps with
  | nil => intro name vs sc h; simp [findMulti] at h
  | cons hd rest ih =>
    intro name vs sc h
    obtain ⟨n, pv⟩ := hd
    cases pv with
    | scalar s0 =>
      rw [findMulti_cons_scalar] at h
      have hrec := ih name vs sc h
      rw [setParam_cons, multiCount_cons, multiCount_cons]
      by_cases hn : n = name <;> simp [hn, PVal.isMulti] <;> omega
    | multi ws =>
      rw [findMulti_cons_multi] at h
      cases h
      have hle := multiCount_setParam_le rest name sc
      rw [setParam_cons, multiCount_cons, multiCount_cons]
      simp [PVal.isMulti]
      omega

theorem expandFuel_congr : ∀ (f1 f2 : Nat) (ps : ParamSet) (c : String),
    multiCount ps ≤ f1 → multiCount ps ≤ f2 → expandFuel f1 ps c = expandFuel f2 ps c := by
  intro f1
  induction f1 with
  | zero =>
    intro f2 ps c h1 _
    have hn : findMulti ps = none := (multiCount_eq_zero_iff ps).mp (Nat.le_zero.mp h1)
    cases f2 <;> simp [expandFuel, hn]
  | succ k ih =>
    intro f2 ps c h1 h2
    cases hf : findMulti ps with
    | none => cases f2 <;> simp [expandFuel, hf]
    | some nv =>
      obtain ⟨name, vs⟩ := nv
      cases f2 with
      | zero =>
        rw [(multiCount_eq_zero_iff ps).mp (Nat.le_zero.mp h2)] at hf
        cases hf
      | succ m =>
        simp only [expandFuel, hf]
        congr 1
        apply List.map_congr_left
        intro v _
        have hlt := multiCount_setParam_lt ps name vs v hf
        exact ih m (setParam ps name (.scalar v)) _ (by omega) (by omega)

theorem expand_runs_eq (ps : ParamSet) (c : String) :
    expand_runs ps c =
      match findMulti ps with
      | none => [(ps, c)]
      | some (name, vs) =>
        (vs.map (fun v => expand_runs (setParam ps name (.scalar v))
          (c ++ "_" ++ name ++ "_" ++ v))).flatten := by
  rw [expand_runs]
  cases hf : findMulti ps with
  | none =>
    cases hm : multiCount ps with
    | zero => rfl
    | succ m => simp [expandFuel, hf]
  | some nv =>
    obtain ⟨name, vs⟩ := nv
    have hpos : multiCount ps ≠ 0 := fun h0 => by
      rw [(multiCount_eq_zero_iff ps).mp h0] at hf; cases hf
    obtain ⟨m, hm⟩ : ∃ m, multiCount ps = m + 1 := ⟨multiCount ps - 1, by omega⟩
    rw [hm]
    simp only [expandFuel, hf]
    congr 1
    apply List.map_congr_left
    intro v _
    have hlt := multiCount_setParam_lt ps name vs v hf
    rw [expand_runs]
    exact expandFuel_congr m (multiCount (setParam ps name (.scalar v)))
      (setParam ps name (.scalar v)) _ (by omega) (Nat.le_refl _)

theorem expandedCount_no_multi : ∀ (ps : ParamSet), findMulti ps = none →
    expandedCount ps = 1 := by
  intro ps
  induction ps with
  | nil => intro _; rfl
  | cons hd rest ih =>
    intro h
    obtain ⟨n, pv⟩ := hd
    cases pv with
    | scalar sc =>
      rw [findMulti_cons_scalar] at h
      rw [expandedCount_cons_scalar]
      exact ih h
    | multi ws => rw [findMulti_cons_multi] at h; cases h

theorem expandedCount_split : ∀ (ps : ParamSet) (name : String) (vs : List String)
    (v : String), (ps.map Prod.fst).Nodup → findMulti ps = some (name, vs) →
    expandedCount ps = vs.length * expandedCount (setParam ps name (.scalar v)) := by
  intro ps
  induction ps with
  | nil => intro name vs v _ h; simp [findMulti] at h
  | cons hd rest ih =>
    intro name vs v hnd h
    obtain ⟨n, pv⟩ := hd
    rw [List.map_cons, List.nodup_cons] at hnd
    obtain ⟨hn1, hn2⟩ := hnd
    cases pv with
    | multi ws =>
      rw [findMulti_cons_multi] at h
      cases h
      have hsp : setParam ((name, PVal.multi vs) :: rest) name (.scalar v) =
          (name, PVal.scalar v) :: rest := by
        rw [setParam_cons, if_pos rfl, setParam_not_mem rest name (.scalar v) hn1]
      rw [hsp]
      rfl
    | scalar sc =>
      rw [findMulti_cons_scalar] at h
      have hne : n ≠ name := by
        intro he
        subst he
        exact hn1 (List.mem_map.mpr ⟨(n, PVal.multi vs), findMulti_mem rest n vs h, rfl⟩)
      have hsp : setParam ((n, PVal.scalar sc) :: rest) name (.scalar v) =
          (n, PVal.scalar sc) :: setParam rest name (.scalar v) := by
        simp [setParam, hne]
      rw [hsp, expandedCount_cons_scalar, expandedCount_cons_scalar]
      exact ih name vs v hn2 h

theorem expandedCount_setParam_indep : ∀ (ps : ParamSet) (name v w : String),
    expandedCount (setParam ps name (.scalar v)) =
      expandedCount (setParam ps name (.scalar w)) := by
  intro ps name v w
  induction ps with
  | nil => rfl
  | cons hd rest ih =>
    obtain ⟨n, pv⟩ := hd
    simp only [setParam, List.map_cons] at ih ⊢
    by_cases hn : n = name
    · rw [if_pos (by simpa using hn), if_pos (by simpa using hn)]
      exact ih
    · rw [if_neg (by simpa using hn), if_neg (by simpa using hn)]
      cases pv with
      | scalar sc => rw [expandedCount_cons_scalar, expandedCount_cons_scalar]; exact ih
      | multi ws => rw [expandedCount_cons_multi, expandedCount_cons_multi, ih]

theorem flatten_map_singleton {α β : Type} (l : List α) (g : α → β) :
    (l.map (fun v => [g v])).flatten = l.map g := by
  induction l with
  | nil => rfl
  | cons h t ih => simp [ih]

theorem string_append_left_cancel (s : String) : Function.Injective (fun t => s ++ t) := by
  intro a b h
  have hd : (s ++ a).data = (s ++ b).data := congrArg String.data h
  rw [String.data_append, String.data_append] at hd
  exact String.ext (List.append_cancel_left hd)

theorem length_expand_aux : ∀ (n : Nat) (ps : ParamSet) (c : String),
    multiCount ps ≤ n → (ps.map Prod.fst).Nodup →
    (expand_runs ps c).length = expandedCount ps := by
  intro n
  induction n with
  | zero =>
    intro ps c h _
    have hf : findMulti ps = none := (multiCount_eq_zero_iff ps).mp (Nat.le_zero.mp h)
    rw [expand_runs_eq, hf, expandedCount_no_multi ps hf]
    rfl
  | succ k ih =>
    intro ps c h hnd
    cases hf : findMulti ps with
    | none =>
      rw [expand_runs_eq, hf, expandedCount_no_multi ps hf]
      rfl
    | some nv =>
      obtain ⟨name, vs⟩ := nv
      rw [expand_runs_eq, hf]
      show ((vs.map (fun v => expand_runs (setParam ps name (.scalar v))
          (c ++ "_" ++ name ++ "_" ++ v))).flatten).length = expandedCount ps
      rw [List.length_flatten, List.map_map]
      have hmap : vs.map (List.length ∘ fun v => expand_runs (setParam ps name (.scalar v))
          (c ++ "_" ++ name ++ "_" ++ v)) =
          vs.map (fun v => expandedCount (setParam ps name (.scalar v))) := by
        apply List.map_congr_left
        intro v _
        simp only [Function.comp]
        apply ih
        · have := multiCount_setParam_lt ps name vs v hf; omega
        · rw [setParam_map_fst]; exact hnd
      rw [hmap]
      cases vs with
      | nil =>
        rw [expandedCount_split ps name [] "" hnd hf]
        simp
      | cons v0 vtail =>
        have hconst : (v0 :: vtail).map (fun v => expandedCount (setParam ps name (.scalar v))) =
            (v0 :: vtail).map (fun _ => expandedCount (setParam ps name (.scalar v0))) := by
          apply List.map_congr_left
          intro v _
          exact expandedCount_setParam_indep ps name v v0
        rw [hconst, List.map_const', List.sum_replicate, smul_eq_mul,
          expandedCount_split ps name (v0 :: vtail) v0 hnd hf]

theorem expandedCount_zero_of_empty : ∀ (ps : ParamSet) (name : String),
    (name, PVal.multi []) ∈ ps → expandedCount ps = 0 := by
  intro ps name
  induction ps with
  | nil => intro h; simp at h
  | cons hd rest ih =>
    intro h
    rcases List.mem_cons.mp h with heq | h2
    · rw [← heq, expandedCount_cons_multi]
      simp
    · obtain ⟨n, pv⟩ := hd
      cases pv with
      | scalar sc => rw [expandedCount_cons_scalar]; exact ih h2
      | multi ws => rw [expandedCount_cons_multi, ih h2]; simp

/-! ### Expander claims -/

/-- C6 counterexample: the ParameterSet `{x: ("1","1")}` has one
multi-value parameter of length 2, and the Expander does yield 2 runs,
but both runs pin `x` to the same value `"1"` and carry the identical
comment suffix `_x_1` — refuting the claim that the runs always carry
distinct pinned values and distinct comment suffixes. -/
theorem expander_distinct_counterexample :
    expand_runs [("x", PVal.multi ["1", "1"])] "c" =
      [([("x", PVal.scalar "1")], "c_x_1"), ([("x", PVal.scalar "1")], "c_x_1")]
    ∧ ¬ ((expand_runs [("x", PVal.multi ["1", "1"])] "c").map Prod.snd).Nodup := by
  constructor
  · decide
  · decide

/-- C6 amended: for every ParameterSet with pairwise-distinct parameter
names, the Expander yields exactly `expandedCount ps` terminal runs — the
product of the lengths of its multi-value parameters; with zero
multi-value parameters it yields exactly one run equal to the input with
the comment unchanged; with exactly one multi-value parameter `name`
of values `vs` it yields `vs.length` runs, the one for value `v` pinning
`name` to `v` with comment suffix `_<name>_<v>`, and the pinned values
and comment suffixes are distinct whenever the values in `vs` are
distinct. -/
theorem expander_counts (ps : ParamSet) (c : String) (hnd : (ps.map Prod.fst).Nodup) :
    (expand_runs ps c).length = expandedCount ps
    ∧ (findMulti ps = none → expand_runs ps c = [(ps, c)])
    ∧ (∀ name vs, findMulti ps = some (name, vs) → multiCount ps = 1 →
        expand_runs ps c =
          vs.map (fun v => (setParam ps name (.scalar v), c ++ "_" ++ name ++ "_" ++ v))
        ∧ (vs.Nodup → (vs.map (fun v => c ++ "_" ++ name ++ "_" ++ v)).Nodup)) := by
  refine ⟨length_expand_aux (multiCount ps) ps c (Nat.le_refl _) hnd, ?_, ?_⟩
  · intro hf
    rw [expand_runs_eq, hf]
  · intro name vs hf h1
    constructor
    · rw [expand_runs_eq, hf]
      show (vs.map (fun v => expand_runs (setParam ps name (.scalar v))
          (c ++ "_" ++ name ++ "_" ++ v))).flatten = _
      have hin : ∀ v, expand_runs (setParam ps name (.scalar v))
          (c ++ "_" ++ name ++ "_" ++ v) =
          [(setParam ps name (.scalar v), c ++ "_" ++ name ++ "_" ++ v)] := by
        intro v
        have hz : multiCount (setParam ps name (.scalar v)) = 0 := by
          have := multiCount_setParam_lt ps name vs v hf
          omega
        rw [expand_runs_eq, (multiCount_eq_zero_iff _).mp hz]
      rw [List.map_congr_left (fun v _ => hin v), flatten_map_singleton]
    · intro hvs
      exact hvs.map (string_append_left_cancel (c ++ "_" ++ name ++ "_"))

/-- Witness for `expander_counts` on a concrete ParameterSet with one
multi-value parameter of length 2 and one scalar parameter. -/
theorem expander_counts_witness :
    ((([("x", PVal.multi ["1", "2"]), ("k", PVal.scalar "0")] : ParamSet).map Prod.fst).Nodup)
    ∧ ((expand_runs [("x", PVal.multi ["1", "2"]), ("k", PVal.scalar "0")] "c").length =
        expandedCount [("x", PVal.multi ["1", "2"]), ("k", PVal.scalar "0")]
      ∧ (findMulti [("x", PVal.multi ["1", "2"]), ("k", PVal.scalar "0")] = none →
          expand_runs [("x", PVal.multi ["1", "2"]), ("k", PVal.scalar "0")] "c" =
            [([("x", PVal.multi ["1", "2"]), ("k", PVal.scalar "0")], "c")])
      ∧ (∀ name vs,
          findMulti [("x", PVal.multi ["1", "2"]), ("k", PVal.scalar "0")] = some (name, vs) →
          multiCount [("x", PVal.multi ["1", "2"]), ("k", PVal.scalar "0")] = 1 →
          expand_runs [("x", PVal.multi ["1", "2"]), ("k", PVal.scalar "0")] "c" =
            vs.map (fun v => (setParam [("x", PVal.multi ["1", "2"]), ("k", PVal.scalar "0")]
              name (.scalar v), "c" ++ "_" ++ name ++ "_" ++ v))
          ∧ (vs.Nodup → (vs.map (fun v => "c" ++ "_" ++ name ++ "_" ++ v)).Nodup))) :=
  ⟨by decide, expander_counts [("x", PVal.multi ["1", "2"]), ("k", PVal.scalar "0")] "c"
    (by decide)⟩

/-- C7: a ParameterSet (with distinct parameter names) containing a
multi-value parameter with an empty value list expands to zero runs —
the sweep is silently dropped, the expansion is total and raises
nothing. -/
theorem expander_empty_sweep (ps : ParamSet) (name : String) (c : String)
    (hnd : (ps.map Prod.fst).Nodup) (hmem : (name, PVal.multi []) ∈ ps) :
    expand_runs ps c = [] := by
  have hz : expandedCount ps = 0 := expandedCount_zero_of_empty ps name hmem
  have hlen := length_expand_aux (multiCount ps) ps c (Nat.le_refl _) hnd
  rw [hz] at hlen
  exact List.length_eq_zero.mp hlen

/-- Witness for `expander_empty_sweep` on the ParameterSet
`{b: "s", a: ()}`. -/
theorem expander_empty_sweep_witness :
    ((([("b", PVal.scalar "s"), ("a", PVal.multi [])] : ParamSet).map Prod.fst).Nodup)
    ∧ (("a", PVal.multi []) ∈ ([("b", PVal.scalar "s"), ("a", PVal.multi [])] : ParamSet))
    ∧ expand_runs [("b", PVal.scalar "s"), ("a", PVal.multi [])] "c" = [] :=
  ⟨by decide, by decide,
    expander_empty_sweep [("b", PVal.scalar "s"), ("a", PVal.multi [])] "a" "c"
      (by decide) (by decide)⟩

end PF3D
